import Mathlib

set_option maxHeartbeats 1000000
set_option synthInstance.maxHeartbeats 400000
set_option linter.unusedSectionVars false

/-!
Shallow embedding of the change-detection core of GMDProjectL/unisettings
(`src/unisettings.cpp`).

Strings (`QString`) are modelled as lists of characters; `QVariant` values are
an abstract type `V` with decidable equality, and the invalid `QVariant()`
(used as the absent/removal marker) is modelled by `Option V`'s `none`.
`QSettings` / `QHash` key-value stores are modelled as association lists with
unique keys; lookups, inserts and removals mirror the hash-map semantics.
-/

/-- Character-list model of `QString`. -/
abbrev Str : Type := List Char

section Maps

variable {V : Type}

/-- Lookup in an association-list map (model of `QHash::value` /
`QSettings::value` returning an invalid variant, i.e. `none`, when absent). -/
def lookupA : List (Str × V) → Str → Option V
  | [], _ => none
  | (k', v') :: t, k => if k' = k then some v' else lookupA t k

/-- Insert-or-replace in an association-list map (model of `QHash::operator[]=`
/ `QSettings::setValue`). -/
def insertA : List (Str × V) → Str → V → List (Str × V)
  | [], k, v => [(k, v)]
  | (k', v') :: t, k, v => if k' = k then (k, v) :: t else (k', v') :: insertA t k v

/-- Removal of a key from an association-list map (model of `QHash::remove`). -/
def removeA : List (Str × V) → Str → List (Str × V)
  | [], _ => []
  | (k', v') :: t, k => if k' = k then removeA t k else (k', v') :: removeA t k

theorem lookupA_insertA (m : List (Str × V)) (k k' : Str) (v : V) :
    lookupA (insertA m k v) k' = if k = k' then some v else lookupA m k' := by
  induction m with
  | nil => by_cases h : k = k' <;> simp [insertA, lookupA, h]
  | cons p t ih =>
    obtain ⟨pk, pv⟩ := p
    by_cases hpk : pk = k
    · subst hpk
      by_cases h : pk = k' <;> simp [insertA, lookupA, h]
    · by_cases h : pk = k'
      · subst h
        have : ¬ k = pk := fun hh => hpk hh.symm
        simp [insertA, lookupA, hpk, this]
      · simp [insertA, lookupA, hpk, h, ih]

theorem lookupA_removeA (m : List (Str × V)) (k k' : Str) :
    lookupA (removeA m k) k' = if k = k' then none else lookupA m k' := by
  induction m with
  | nil => by_cases h : k = k' <;> simp [removeA, lookupA, h]
  | cons p t ih =>
    obtain ⟨pk, pv⟩ := p
    by_cases hpk : pk = k
    · subst hpk
      by_cases h : pk = k'
      · subst h
        simp [removeA, lookupA, ih]
      · simp [removeA, lookupA, h, ih]
    · by_cases h : pk = k'
      · subst h
        have hk : ¬ k = pk := fun hh => hpk hh.symm
        simp [removeA, lookupA, hpk, hk, ih]
      · simp [removeA, lookupA, hpk, h, ih]

theorem lookupA_eq_none_iff (m : List (Str × V)) (k : Str) :
    lookupA m k = none ↔ k ∉ m.map Prod.fst := by
  induction m with
  | nil => simp [lookupA]
  | cons p t ih =>
    obtain ⟨pk, pv⟩ := p
    by_cases h : pk = k
    · subst h
      simp [lookupA]
    · have h' : ¬ k = pk := fun hh => h hh.symm
      simp [lookupA, h, h', ih]

theorem lookupA_isSome_iff (m : List (Str × V)) (k : Str) :
    (∃ v, lookupA m k = some v) ↔ k ∈ m.map Prod.fst := by
  constructor
  · rintro ⟨v, hv⟩
    by_contra hk
    rw [(lookupA_eq_none_iff m k).2 hk] at hv
    exact Option.noConfusion hv
  · intro hm
    cases h : lookupA m k with
    | some v => exact ⟨v, rfl⟩
    | none => exact absurd hm ((lookupA_eq_none_iff m k).1 h)

theorem lookupA_append (a b : List (Str × V)) (k : Str) :
    lookupA (a ++ b) k =
      match lookupA a k with
      | some v => some v
      | none => lookupA b k := by
  induction a with
  | nil => simp [lookupA]
  | cons p t ih =>
    obtain ⟨pk, pv⟩ := p
    by_cases h : pk = k <;> simp [lookupA, h, ih]

end Maps

section Model

variable {V : Type} [DecidableEq V]

/-- The Qt signals emitted by `UniSettings` (`valueChanged` and
`externalValueChanged` in `src/unisettings.h`).  A `none` value models the
invalid `QVariant()` used as the removal / absent marker. -/
inductive Signal (V : Type) where
  | valueChanged (key : Str) (value : Option V)
  | externalValueChanged (owner : Str) (key : Str) (value : Option V)
  deriving DecidableEq

/-- State of one `UniSettingsPrivate` instance (`src/unisettings.cpp`,
lines 14-48): the in-memory `QSettings` contents (which local operations keep
synchronized with the backing file), the active group string, the snapshot
cache, and the one-shot `ignoreNextChange` flag. -/
structure UniState (V : Type) where
  appName : Str
  settings : List (Str × V)
  currentGroup : Str
  cachedValues : List (Str × V)
  ignoreNextChange : Bool
  deriving DecidableEq

/-- `UniSettingsPrivate::fullKey` (lines 57-63). -/
def fullKey (currentGroup : Str) (key : Str) : Str :=
  if currentGroup.isEmpty then key else currentGroup ++ '/' :: key

/-- First loop of `UniSettingsPrivate::detectChanges` (lines 88-95): walk the
keys currently on disk; any key absent from the cache or whose value differs
from the cached one is recorded in the delta and written back to the cache. -/
def scanPresent : List (Str × V) → List (Str × V) → List (Str × Option V) × List (Str × V)
  | [], cache => ([], cache)
  | (k, newV) :: rest, cache =>
    if lookupA cache k = some newV then
      scanPresent rest cache
    else
      let r := scanPresent rest (insertA cache k newV)
      ((k, some newV) :: r.1, r.2)

/-- The stateful diff shared verbatim by `UniSettingsPrivate::detectChanges`
(lines 82-103) and `UniSettingsPrivate::detectAppChanges` (lines 112-134):
record every added/changed on-disk key with its new value, record every cached
key missing from disk with the absent marker, and mutate the cache
accordingly.  The cached key list is captured before the first loop, as in the
source. -/
def diffPass (disk cache : List (Str × V)) : List (Str × Option V) × List (Str × V) :=
  let currentKeys := disk.map Prod.fst
  let cachedKeys := cache.map Prod.fst
  let r1 := scanPresent disk cache
  let removedKeys := cachedKeys.filter (fun k => decide (k ∉ currentKeys))
  let removals : List (Str × Option V) := removedKeys.map (fun k => (k, none))
  let cache2 := removedKeys.foldl (fun c k => removeA c k) r1.2
  (r1.1 ++ removals, cache2)

/-- `UniSettingsPrivate::detectChanges` (lines 74-104).  `disk` is the on-disk
contents that `settings->sync()` would reload.  When `ignoreNextChange` is set
the pass is skipped entirely: the flag is cleared, the delta is empty and
neither the settings nor the cache are touched. -/
def detectChanges (disk : List (Str × V)) (st : UniState V) :
    List (Str × Option V) × UniState V :=
  if st.ignoreNextChange then
    ([], { st with ignoreNextChange := false })
  else
    let r := diffPass disk st.cachedValues
    (r.1, { st with settings := disk, cachedValues := r.2 })

/-- `UniSettingsPrivate::detectAppChanges` (lines 107-135): run the diff for
one sibling application file against its entry in `appCachedValues`
(`QHash::operator[]` default-constructs an empty cache for an unknown app). -/
def detectAppChanges (appDisk : List (Str × V)) (caches : List (Str × List (Str × V)))
    (app : Str) : List (Str × Option V) × List (Str × List (Str × V)) :=
  let cached := (lookupA caches app).getD []
  let r := diffPass appDisk cached
  (r.1, insertA caches app r.2)

end Model

section Facade

variable {V : Type} [DecidableEq V]

/-- `UniSettings::value` (lines 290-294). -/
def valueOp (st : UniState V) (key : Str) (defaultValue : V) : V :=
  (lookupA st.settings (fullKey st.currentGroup key)).getD defaultValue

/-- `UniSettings::setValue` (lines 296-308).  When the new value differs from
the stored one (an absent key reads as the invalid variant, which differs from
every supported value) the write arms `ignoreNextChange`, persists, updates
the snapshot cache and emits `valueChanged`; otherwise nothing happens. -/
def setValue (st : UniState V) (key : Str) (v : V) : List (Signal V) × UniState V :=
  let fk := fullKey st.currentGroup key
  if lookupA st.settings fk = some v then
    ([], st)
  else
    ([Signal.valueChanged fk (some v)],
     { st with ignoreNextChange := true,
               settings := insertA st.settings fk v,
               cachedValues := insertA st.cachedValues fk v })

/-- Test whether `fk` is a proper ancestor path of `key`, i.e. `fk ++ "/"`
starts `key` (used to model `QSettings::remove` deleting sub-settings). -/
def leadsWith : Str → Str → Bool
  | [], _ => true
  | _ :: _, [] => false
  | c :: cs, d :: ds => if c = d then leadsWith cs ds else false

/-- `QSettings::remove(fk)` removes the setting `fk` and all sub-settings
below it. -/
def removeSettings : List (Str × V) → Str → List (Str × V)
  | [], _ => []
  | (k, v) :: t, fk =>
    if k = fk ∨ leadsWith (fk ++ ['/']) k = true then removeSettings t fk
    else (k, v) :: removeSettings t fk

/-- `UniSettings::remove` (lines 316-325): unconditionally arms
`ignoreNextChange`, removes the key from the settings and the cache, and emits
`valueChanged` with the invalid variant. -/
def removeOp (st : UniState V) (key : Str) : List (Signal V) × UniState V :=
  let fk := fullKey st.currentGroup key
  ([Signal.valueChanged fk none],
   { st with ignoreNextChange := true,
             settings := removeSettings st.settings fk,
             cachedValues := removeA st.cachedValues fk })

/-- `UniSettings::clear` (lines 333-340): unconditionally arms
`ignoreNextChange`, clears the settings and the cache, emits nothing. -/
def clearOp (st : UniState V) : List (Signal V) × UniState V :=
  ([], { st with ignoreNextChange := true, settings := [], cachedValues := [] })

/-- `UniSettings::beginGroup` (lines 348-356), acting on `currentGroup`. -/
def beginGroup (gp : Str) (pfx : Str) : Str :=
  if gp.isEmpty then pfx else gp ++ '/' :: pfx

/-- `QString::lastIndexOf('/')` (line 361); `none` plays the role of `-1`. -/
def lastSlashIdx : Str → Option Nat
  | [] => none
  | c :: rest =>
    match lastSlashIdx rest with
    | some i => some (i + 1)
    | none => if c = '/' then some 0 else none

/-- `UniSettings::endGroup` (lines 358-367), acting on `currentGroup`: drop
everything from the last `/` on, or clear the group when no `/` occurs. -/
def endGroup (gp : Str) : Str :=
  match lastSlashIdx gp with
  | some i => gp.take i
  | none => []

/-- `UniSettings::group` (lines 369-373), acting on `currentGroup`. -/
def groupGet (gp : Str) : Str := gp

/-- `"system"`, the reserved base name of the System-scope file. -/
def sysName : Str := ['s', 'y', 's', 't', 'e', 'm']

/-- State owned by the System-scope singleton: its own `UniSettingsPrivate`
state, the per-application sibling cache table `appCachedValues`, and the set
of sibling files currently in the `QFileSystemWatcher` (identified by their
application base names). -/
structure SysState (V : Type) where
  base : UniState V
  appCachedValues : List (Str × List (Str × V))
  watched : List Str
  deriving DecidableEq

/-- The per-application part of the System-scope debounce-timer callback
(lines 206-228): for every `*.conf` directory entry other than `system`, run
`detectAppChanges`, emit one `externalValueChanged(appName, key, value)` per
delta entry, and add the file to the watcher if it is not watched yet.
`dirFiles` lists each file's base name with its on-disk contents. -/
def scanApps : List (Str × List (Str × V)) → List (Str × List (Str × V)) → List Str →
    List (Signal V) × List (Str × List (Str × V)) × List Str
  | [], caches, watched => ([], caches, watched)
  | (app, adisk) :: rest, caches, watched =>
    if app = sysName then scanApps rest caches watched
    else
      let r := detectAppChanges adisk caches app
      let sigs := r.1.map (fun p => Signal.externalValueChanged app p.1 p.2)
      let watched2 := if app ∈ watched then watched else watched ++ [app]
      let t := scanApps rest r.2 watched2
      (sigs ++ t.1, t.2)

/-- The System-scope debounce-timer callback (constructor lambda, lines
197-237): diff the system file and emit `externalValueChanged("system", ...)`
per entry, then process every application file in the directory. -/
def systemTimerCallback (sysDisk : List (Str × V)) (dirFiles : List (Str × List (Str × V)))
    (st : SysState V) : List (Signal V) × SysState V :=
  let r := detectChanges sysDisk st.base
  let sysSigs := r.1.map (fun p => Signal.externalValueChanged sysName p.1 p.2)
  let s := scanApps dirFiles st.appCachedValues st.watched
  (sysSigs ++ s.1, { base := r.2, appCachedValues := s.2.1, watched := s.2.2 })

/-- The Application-scope debounce-timer callback (constructor lambda, lines
269-283): diff the instance's own file; for each delta entry emit
`valueChanged` ("Added for local monitoring" in the source) and then
`externalValueChanged` tagged with the application name. -/
def appTimerCallback (disk : List (Str × V)) (st : UniState V) :
    List (Signal V) × UniState V :=
  let r := detectChanges disk st
  (r.1.foldr
     (fun p acc => Signal.valueChanged p.1 p.2 ::
       Signal.externalValueChanged st.appName p.1 p.2 :: acc) [],
   r.2)

end Facade

section DiffLemmas

variable {V : Type} [DecidableEq V]

theorem scanPresent_snd (ps : List (Str × V)) :
    ∀ (cache : List (Str × V)) (k : Str), (ps.map Prod.fst).Nodup →
      lookupA (scanPresent ps cache).2 k =
        match lookupA ps k with
        | some v => some v
        | none => lookupA cache k := by
  induction ps with
  | nil => intro cache k _; simp [scanPresent, lookupA]
  | cons p rest ih =>
    rintro cache k hnd
    obtain ⟨a, nv⟩ := p
    rw [List.map_cons, List.nodup_cons] at hnd
    obtain ⟨ha, hnd'⟩ := hnd
    have hra : lookupA rest a = none := (lookupA_eq_none_iff rest a).2 ha
    by_cases hc : lookupA cache a = some nv
    · have hs : (scanPresent ((a, nv) :: rest) cache).2 = (scanPresent rest cache).2 := by
        simp [scanPresent, hc]
      rw [hs, ih cache k hnd']
      by_cases hk : a = k
      · subst hk
        simp [lookupA, hra, hc]
      · simp [lookupA, hk]
    · have hs : (scanPresent ((a, nv) :: rest) cache).2 =
          (scanPresent rest (insertA cache a nv)).2 := by
        simp [scanPresent, hc]
      rw [hs, ih (insertA cache a nv) k hnd']
      by_cases hk : a = k
      · subst hk
        simp [lookupA, hra, lookupA_insertA]
      · cases hr : lookupA rest k <;>
          simp [lookupA, hk, hr, lookupA_insertA]

theorem scanPresent_fst (ps : List (Str × V)) :
    ∀ (cache : List (Str × V)) (k : Str), (ps.map Prod.fst).Nodup →
      lookupA (scanPresent ps cache).1 k =
        match lookupA ps k with
        | some nv => if lookupA cache k = some nv then none else some (some nv)
        | none => none := by
  induction ps with
  | nil => intro cache k _; simp [scanPresent, lookupA]
  | cons p rest ih =>
    rintro cache k hnd
    obtain ⟨a, nv⟩ := p
    rw [List.map_cons, List.nodup_cons] at hnd
    obtain ⟨ha, hnd'⟩ := hnd
    have hra : lookupA rest a = none := (lookupA_eq_none_iff rest a).2 ha
    by_cases hc : lookupA cache a = some nv
    · have hs : (scanPresent ((a, nv) :: rest) cache).1 = (scanPresent rest cache).1 := by
        simp [scanPresent, hc]
      rw [hs, ih cache k hnd']
      by_cases hk : a = k
      · subst hk
        simp [lookupA, hra, hc]
      · simp [lookupA, hk]
    · have hs : (scanPresent ((a, nv) :: rest) cache).1 =
          (a, some nv) :: (scanPresent rest (insertA cache a nv)).1 := by
        simp [scanPresent, hc]
      rw [hs]
      by_cases hk : a = k
      · subst hk
        simp [lookupA, hra, hc]
      · have hl : lookupA ((a, some nv) :: (scanPresent rest (insertA cache a nv)).1) k =
            lookupA (scanPresent rest (insertA cache a nv)).1 k := by
          simp [lookupA, hk]
        rw [hl, ih (insertA cache a nv) k hnd']
        cases hr : lookupA rest k <;>
          simp [lookupA, hk, hr, lookupA_insertA]

theorem lookupA_foldl_removeA (ks : List Str) :
    ∀ (c : List (Str × V)) (k : Str),
      lookupA (ks.foldl (fun c k => removeA c k) c) k =
        if k ∈ ks then none else lookupA c k := by
  induction ks with
  | nil => intro c k; simp
  | cons a ks ih =>
    intro c k
    rw [List.foldl_cons, ih (removeA c a) k, lookupA_removeA]
    by_cases h1 : k ∈ ks
    · simp [h1]
    · by_cases h2 : a = k
      · subst h2
        simp [h1]
      · have h2' : ¬ k = a := fun hh => h2 hh.symm
        simp [h1, h2, h2']

theorem lookupA_removalsMap (ks : List Str) (k : Str) :
    lookupA (ks.map (fun k => (k, (none : Option V)))) k =
      if k ∈ ks then some none else none := by
  induction ks with
  | nil => simp [lookupA]
  | cons a ks ih =>
    by_cases h : a = k
    · subst h
      simp [lookupA]
    · have h' : ¬ k = a := fun hh => h hh.symm
      simp [lookupA, h, h', ih]

theorem mem_removedKeys_iff (disk cache : List (Str × V)) (k : Str) :
    k ∈ (cache.map Prod.fst).filter (fun k => decide (k ∉ disk.map Prod.fst)) ↔
      k ∈ cache.map Prod.fst ∧ k ∉ disk.map Prod.fst := by
  simp [List.mem_filter]

theorem diffPass_fst (disk cache : List (Str × V)) (k : Str)
    (hnd : (disk.map Prod.fst).Nodup) :
    lookupA (diffPass disk cache).1 k =
      match lookupA disk k, lookupA cache k with
      | some nv, old => if old = some nv then none else some (some nv)
      | none, some _ => some none
      | none, none => none := by
  unfold diffPass
  rw [lookupA_append, scanPresent_fst disk cache k hnd, lookupA_removalsMap]
  cases hd : lookupA disk k with
  | some nv =>
    have hkd : k ∈ disk.map Prod.fst := (lookupA_isSome_iff disk k).1 ⟨nv, hd⟩
    have hnr : ¬ (k ∈ cache.map Prod.fst ∧ k ∉ disk.map Prod.fst) :=
      fun hh => hh.2 hkd
    rw [if_neg (fun hh => hnr ((mem_removedKeys_iff disk cache k).1 hh))]
    by_cases hc : lookupA cache k = some nv <;> simp [hc]
  | none =>
    have hkd : k ∉ disk.map Prod.fst := (lookupA_eq_none_iff disk k).1 hd
    cases hcv : lookupA cache k with
    | some w =>
      have hkc : k ∈ cache.map Prod.fst := (lookupA_isSome_iff cache k).1 ⟨w, hcv⟩
      rw [if_pos ((mem_removedKeys_iff disk cache k).2 ⟨hkc, hkd⟩)]
    | none =>
      have hkc : k ∉ cache.map Prod.fst := (lookupA_eq_none_iff cache k).1 hcv
      rw [if_neg (fun hh => (((mem_removedKeys_iff disk cache k).1 hh).1 |> hkc))]

theorem diffPass_snd (disk cache : List (Str × V)) (k : Str)
    (hnd : (disk.map Prod.fst).Nodup) :
    lookupA (diffPass disk cache).2 k = lookupA disk k := by
  unfold diffPass
  rw [lookupA_foldl_removeA, scanPresent_snd disk cache k hnd]
  by_cases hr : k ∈ (cache.map Prod.fst).filter (fun k => decide (k ∉ disk.map Prod.fst))
  · obtain ⟨hkc, hkd⟩ := (mem_removedKeys_iff disk cache k).1 hr
    rw [if_pos hr, (lookupA_eq_none_iff disk k).2 hkd]
  · rw [if_neg hr]
    cases hd : lookupA disk k with
    | some nv => simp
    | none =>
      have hkd : k ∉ disk.map Prod.fst := (lookupA_eq_none_iff disk k).1 hd
      have hkc : k ∉ cache.map Prod.fst := by
        intro hkc
        exact hr ((mem_removedKeys_iff disk cache k).2 ⟨hkc, hkd⟩)
      simp [(lookupA_eq_none_iff cache k).2 hkc]

theorem diffPass_fst_nil_of_agree (disk cache : List (Str × V))
    (hnd : (disk.map Prod.fst).Nodup)
    (hag : ∀ k, lookupA cache k = lookupA disk k) :
    (diffPass disk cache).1 = [] := by
  cases h : (diffPass disk cache).1 with
  | nil => rfl
  | cons p t =>
    obtain ⟨pk, pv⟩ := p
    have hl := diffPass_fst disk cache pk hnd
    rw [h] at hl
    have hpk : lookupA ((pk, pv) :: t) pk = some pv := by simp [lookupA]
    rw [hpk, hag pk] at hl
    cases hd : lookupA disk pk with
    | some nv => rw [hd] at hl; simp at hl
    | none => rw [hd] at hl; simp at hl

end DiffLemmas

section GroupLemmas

/-- Join a stack of group segments with `/`, the correspondence between the
spec's group-prefix stack and the single `currentGroup` string held by
`UniSettingsPrivate`. -/
def joinGroups : List Str → Str
  | [] => []
  | [s] => s
  | s :: r :: rest => s ++ '/' :: joinGroups (r :: rest)

theorem joinGroups_ne_nil (gs : List Str) (h0 : gs ≠ [])
    (h1 : ∀ s ∈ gs, s ≠ []) : joinGroups gs ≠ [] := by
  match gs with
  | [] => exact absurd rfl h0
  | [s] =>
    simpa [joinGroups] using h1 s (by simp)
  | s :: r :: rest =>
    simp [joinGroups]

theorem lastSlashIdx_of_no_slash (s : Str) (h : '/' ∉ s) : lastSlashIdx s = none := by
  induction s with
  | nil => rfl
  | cons c rest ih =>
    have hc : c ≠ '/' := fun hh => h (hh ▸ List.mem_cons_self c rest)
    have hr : '/' ∉ rest := fun hh => h (List.mem_cons_of_mem c hh)
    simp [lastSlashIdx, ih hr, hc]

theorem lastSlashIdx_append (gp seg : Str) (h : '/' ∉ seg) :
    lastSlashIdx (gp ++ '/' :: seg) = some gp.length := by
  induction gp with
  | nil => simp [lastSlashIdx, lastSlashIdx_of_no_slash seg h]
  | cons c rest ih => simp [lastSlashIdx, ih]

theorem take_length_append (a b : Str) : (a ++ b).take a.length = a := by
  induction a with
  | nil => simp
  | cons c rest ih => simp [ih]

end GroupLemmas

section CallbackLemmas

variable {V : Type} [DecidableEq V]

theorem scanApps_no_valueChanged (dirFiles : List (Str × List (Str × V))) :
    ∀ (caches : List (Str × List (Str × V))) (watched : List Str) (k : Str) (v : Option V),
      Signal.valueChanged k v ∉ (scanApps dirFiles caches watched).1 := by
  induction dirFiles with
  | nil => intro caches watched k v; simp [scanApps]
  | cons p rest ih =>
    rintro caches watched k v
    obtain ⟨app, adisk⟩ := p
    by_cases h : app = sysName
    · simpa [scanApps, h] using ih caches watched k v
    · have hs : (scanApps ((app, adisk) :: rest) caches watched).1 =
          (detectAppChanges adisk caches app).1.map
            (fun p => Signal.externalValueChanged app p.1 p.2) ++
          (scanApps rest (detectAppChanges adisk caches app).2
            (if app ∈ watched then watched else watched ++ [app])).1 := by
        simp [scanApps, h]
      rw [hs]
      intro hm
      rcases List.mem_append.1 hm with hm | hm
      · obtain ⟨q, _, hq⟩ := List.mem_map.1 hm
        exact Signal.noConfusion hq
      · exact ih _ _ k v hm

theorem scanApps_watched_mono (dirFiles : List (Str × List (Str × V))) :
    ∀ (caches : List (Str × List (Str × V))) (watched : List Str) (x : Str),
      x ∈ watched → x ∈ (scanApps dirFiles caches watched).2.2 := by
  induction dirFiles with
  | nil => intro caches watched x hx; simpa [scanApps] using hx
  | cons p rest ih =>
    rintro caches watched x hx
    obtain ⟨app, adisk⟩ := p
    by_cases h : app = sysName
    · simpa [scanApps, h] using ih caches watched x hx
    · simp only [scanApps, h, if_neg]
      apply ih
      by_cases hw : app ∈ watched
      · simpa [hw] using hx
      · simp [hw]
        exact Or.inl hx

theorem valueChanged_mem_foldr (own : Str) (l : List (Str × Option V)) (k : Str) (v : Option V) :
    Signal.valueChanged k v ∈
        l.foldr (fun p acc => Signal.valueChanged p.1 p.2 ::
          Signal.externalValueChanged own p.1 p.2 :: acc) [] ↔
      (k, v) ∈ l := by
  induction l with
  | nil => simp
  | cons p rest ih =>
    obtain ⟨pk, pv⟩ := p
    simp [ih, Prod.ext_iff]

theorem scanPresent_all_new (ps : List (Str × V)) :
    ∀ (cache : List (Str × V)), (ps.map Prod.fst).Nodup →
      (∀ p ∈ ps, lookupA cache p.1 = none) →
      (scanPresent ps cache).1 = ps.map (fun p => (p.1, some p.2)) := by
  induction ps with
  | nil => intro cache _ _; simp [scanPresent]
  | cons p rest ih =>
    rintro cache hnd hfresh
    obtain ⟨a, nv⟩ := p
    rw [List.map_cons, List.nodup_cons] at hnd
    obtain ⟨ha, hnd'⟩ := hnd
    have hc : lookupA cache a = none := hfresh (a, nv) (by simp)
    have hcn : ¬ lookupA cache a = some nv := by simp [hc]
    have hfresh' : ∀ p ∈ rest, lookupA (insertA cache a nv) p.1 = none := by
      intro q hq
      have hqa : ¬ a = q.1 := by
        intro hh
        exact ha (hh ▸ List.mem_map.2 ⟨q, hq, rfl⟩)
      rw [lookupA_insertA, if_neg hqa]
      exact hfresh q (List.mem_cons_of_mem _ hq)
    simp [scanPresent, hcn, ih (insertA cache a nv) hnd' hfresh']

theorem diffPass_fresh_fst (ps : List (Str × V)) (hnd : (ps.map Prod.fst).Nodup) :
    (diffPass ps []).1 = ps.map (fun p => (p.1, some p.2)) := by
  unfold diffPass
  simp [scanPresent_all_new ps [] hnd (fun p _ => rfl)]

end CallbackLemmas

section ErrorModel

variable {V : Type} [DecidableEq V]

/-- `QSettings::Status` after a sync: `NoError`, or `AccessError` left behind
by a failed durable write.  The facade code never reads it. -/
inductive QtStatus where
  | noError
  | accessError
  deriving DecidableEq

/-- The durable side of the store, for the error-path analysis: the on-disk
contents plus the `QSettings` status word. -/
structure DiskState (V : Type) where
  onDisk : List (Str × V)
  status : QtStatus
  deriving DecidableEq

/-- `QSettings::sync()` as a durable write that can fail: on success the disk
now holds the in-memory contents; on failure (disk full, permission denied)
the disk is unchanged and the status becomes `AccessError`.  `sync()` returns
nothing — the only way to observe the failure is to query `status()`. -/
def qsettingsSync (writeOk : Bool) (mem : List (Str × V)) (d : DiskState V) : DiskState V :=
  if writeOk then { onDisk := mem, status := QtStatus.noError }
  else { d with status := QtStatus.accessError }

/-- `UniSettings::setValue` (lines 296-308) with the durable-write outcome of
its `settings->sync()` call made explicit.  The source is `void`, branches
only on the old-value comparison, and never inspects the sync status. -/
def setValueChecked (writeOk : Bool) (st : UniState V) (d : DiskState V) (key : Str) (v : V) :
    List (Signal V) × UniState V × DiskState V :=
  let fk := fullKey st.currentGroup key
  if lookupA st.settings fk = some v then ([], st, d)
  else
    let mem := insertA st.settings fk v
    ([Signal.valueChanged fk (some v)],
     { st with ignoreNextChange := true, settings := mem,
               cachedValues := insertA st.cachedValues fk v },
     qsettingsSync writeOk mem d)

end ErrorModel

section Claims

variable {V : Type} [DecidableEq V]

/-- Concrete `UniState` builder over `Nat` values (empty app name and group),
used by the witnesses and counterexamples below. -/
def mkState (settings cachedValues : List (Str × Nat)) (flag : Bool) : UniState Nat :=
  { appName := [], settings := settings, currentGroup := [],
    cachedValues := cachedValues, ignoreNextChange := flag }

/-- C1: if the Suppress-Next flag (`ignoreNextChange`) is set when
`detectChanges` runs, the call clears the flag and returns an empty delta,
leaving the settings (no disk reload) and the snapshot cache untouched;
consequently a `setValue(k, v)` that changed the stored value emits exactly
the synchronous local `valueChanged`, arms the flag, and the next debounce
detection cycle emits no signal at all — in particular no
`externalValueChanged` for `k`. -/
theorem c1_self_write_suppression (disk : List (Str × V)) (st : UniState V)
    (k : Str) (v : V) :
    (st.ignoreNextChange = true →
       detectChanges disk st = ([], { st with ignoreNextChange := false })) ∧
    (lookupA st.settings (fullKey st.currentGroup k) ≠ some v →
       (setValue st k v).1 = [Signal.valueChanged (fullKey st.currentGroup k) (some v)] ∧
       (setValue st k v).2.ignoreNextChange = true ∧
       (appTimerCallback disk (setValue st k v).2).1 = []) := by
  constructor
  · intro h
    simp [detectChanges, h]
  · intro h
    refine ⟨by simp [setValue, h], by simp [setValue, h], ?_⟩
    simp [appTimerCallback, detectChanges, setValue, h]

/-- Witness for C1 at concrete inputs: an armed state is drained to an empty
delta, and a fresh write is followed by a silent detection cycle. -/
theorem c1_witness :
    (detectChanges ([] : List (Str × Nat)) (mkState [] [] true) =
      ([], { mkState [] [] true with ignoreNextChange := false })) ∧
    ((setValue (mkState [] [] false) ['a'] 1).1 =
        [Signal.valueChanged (fullKey (mkState [] [] false).currentGroup ['a']) (some 1)] ∧
      (setValue (mkState [] [] false) ['a'] 1).2.ignoreNextChange = true ∧
      (appTimerCallback [] (setValue (mkState [] [] false) ['a'] 1).2).1 = []) :=
  ⟨(c1_self_write_suppression [] (mkState [] [] true) ['a'] 1).1 rfl,
   (c1_self_write_suppression [] (mkState [] [] false) ['a'] 1).2 (by decide)⟩

/-- C2: with the flag clear, `detectChanges` returns exactly the delta against
the on-disk key set — a key maps to its new value iff it is on disk and absent
from or different in the cache, a key maps to the absent marker iff it is
cached but gone from disk, no other key occurs in the delta — and afterwards
the cache agrees with the on-disk mapping at every key. -/
theorem c2_detect_delta_exact (disk : List (Str × V)) (st : UniState V) (k : Str)
    (hflag : st.ignoreNextChange = false)
    (hnd : (disk.map Prod.fst).Nodup) :
    lookupA (detectChanges disk st).1 k =
      (match lookupA disk k, lookupA st.cachedValues k with
       | some nv, old => if old = some nv then none else some (some nv)
       | none, some _ => some none
       | none, none => none) ∧
    lookupA (detectChanges disk st).2.cachedValues k = lookupA disk k := by
  have h1 : detectChanges disk st =
      ((diffPass disk st.cachedValues).1,
       { st with settings := disk, cachedValues := (diffPass disk st.cachedValues).2 }) := by
    simp [detectChanges, hflag]
  rw [h1]
  exact ⟨diffPass_fst disk st.cachedValues k hnd, diffPass_snd disk st.cachedValues k hnd⟩

/-- Witness for C2: a disk where key `a` changed, `b` was removed and `c` was
added, checked at key `a`. -/
theorem c2_witness :
    lookupA (detectChanges [(['a'], 3), (['c'], 4)]
        (mkState [] [(['a'], 1), (['b'], 2)] false)).1 ['a'] =
      (match lookupA [(['a'], 3), (['c'], 4)] ['a'],
             lookupA (mkState [] [(['a'], 1), (['b'], 2)] false).cachedValues ['a'] with
       | some nv, old => if old = some nv then none else some (some nv)
       | none, some _ => some none
       | none, none => none) ∧
    lookupA (detectChanges [(['a'], 3), (['c'], 4)]
        (mkState [] [(['a'], 1), (['b'], 2)] false)).2.cachedValues ['a'] =
      lookupA [(['a'], 3), (['c'], 4)] ['a'] :=
  c2_detect_delta_exact [(['a'], 3), (['c'], 4)]
    (mkState [] [(['a'], 1), (['b'], 2)] false) ['a'] rfl (by decide)

/-- C5 as amended: `setValue` arms `ignoreNextChange` exactly when the new
value differs from the stored one, but `remove` and `clear` arm it
unconditionally — even for an absent key or an already-empty store. -/
theorem c5_arming_amended (st : UniState V) (k : Str) (v : V) :
    ((setValue st k v).2.ignoreNextChange =
       if lookupA st.settings (fullKey st.currentGroup k) = some v
       then st.ignoreNextChange else true) ∧
    (removeOp st k).2.ignoreNextChange = true ∧
    (clearOp st).2.ignoreNextChange = true := by
  refine ⟨?_, rfl, rfl⟩
  by_cases h : lookupA st.settings (fullKey st.currentGroup k) = some v <;>
    simp [setValue, h]

/-- Counterexample to C5 as stated: `remove` on a state whose store does not
contain the key still arms Suppress-Next, contradicting "remove arms it only
when the key is present". -/
theorem c5_counterexample :
    lookupA (mkState [] [] false).settings
        (fullKey (mkState [] [] false).currentGroup ['a']) = none ∧
    (mkState [] [] false).ignoreNextChange = false ∧
    (removeOp (mkState [] [] false) ['a']).2.ignoreNextChange = true := by
  decide

/-- C6 as amended: from any state with the flag clear, a second `detectChanges`
call with unchanged on-disk contents returns the empty delta (the first call
may well be non-empty). -/
theorem c6_second_detect_empty (disk : List (Str × V)) (st : UniState V)
    (hflag : st.ignoreNextChange = false)
    (hnd : (disk.map Prod.fst).Nodup) :
    (detectChanges disk (detectChanges disk st).2).1 = [] := by
  have h1 : detectChanges disk st =
      ((diffPass disk st.cachedValues).1,
       { st with settings := disk, cachedValues := (diffPass disk st.cachedValues).2 }) := by
    simp [detectChanges, hflag]
  rw [h1]
  simp only [detectChanges, hflag]
  simp [hflag]
  exact diffPass_fst_nil_of_agree disk _ hnd
    (fun k => diffPass_snd disk st.cachedValues k hnd)

/-- Witness for C6 as amended, at a state whose first detection is non-empty. -/
theorem c6_witness :
    (detectChanges [(['a'], 1)]
      (detectChanges [(['a'], 1)] (mkState [] [] false)).2).1 = [] :=
  c6_second_detect_empty [(['a'], 1)] (mkState [] [] false) rfl (by decide)

/-- Counterexample to C6 as stated: a flag-clear state whose cache disagrees
with disk — the first of the two consecutive calls returns a non-empty delta,
so the two calls do not both return empty deltas. -/
theorem c6_counterexample :
    (mkState [] [] false).ignoreNextChange = false ∧
    (detectChanges [(['a'], 1)] (mkState [] [] false)).1 ≠ [] := by
  decide

/-- C8: round-trip — `setValue(k, v)` followed by `value(k, d)` on the same
instance with unchanged group returns `v`, for every state, key, value and
default. -/
theorem c8_roundtrip (st : UniState V) (k : Str) (v d : V) :
    valueOp (setValue st k v).2 k d = v := by
  by_cases h : lookupA st.settings (fullKey st.currentGroup k) = some v
  · simp [setValue, h, valueOp]
  · simp [setValue, h, valueOp, lookupA_insertA]

/-- C10: `setValue(k, v)` with `v` equal to the currently stored value for the
effective key is a complete no-op — no signal, and the state (settings,
cache, flag, group) is returned unchanged. -/
theorem c10_noop_on_equal_value (st : UniState V) (k : Str) (v : V)
    (h : lookupA st.settings (fullKey st.currentGroup k) = some v) :
    setValue st k v = ([], st) := by
  simp [setValue, h]

/-- Witness for C10: writing the already-stored value changes nothing. -/
theorem c10_witness :
    setValue (mkState [(['a'], 1)] [(['a'], 1)] false) ['a'] 1 =
      ([], mkState [(['a'], 1)] [(['a'], 1)] false) :=
  c10_noop_on_equal_value (mkState [(['a'], 1)] [(['a'], 1)] false) ['a'] 1 (by decide)

/-- Concrete `SysState` builder over `Nat` values with an empty base state. -/
def mkSys (appCaches : List (Str × List (Str × Nat))) (watched : List Str) : SysState Nat :=
  { base := { appName := sysName, settings := [], currentGroup := [],
              cachedValues := [], ignoreNextChange := false },
    appCachedValues := appCaches, watched := watched }

/-- C3 as amended: when a new application backing file (not yet in the sibling
cache table) is processed during a timer-expiry pass, its sibling cache is
seeded from the file's contents, the file's base name joins the watch set so
later edits are detected — but the first detection pass is NOT discarded: one
`externalValueChanged(appName, key, value)` is emitted for every pre-existing
key of the file. -/
theorem c3_runtime_discovery_amended (app : Str) (adisk : List (Str × V))
    (rest : List (Str × List (Str × V))) (caches : List (Str × List (Str × V)))
    (watched : List Str) (k : Str)
    (hsys : app ≠ sysName) (hfresh : lookupA caches app = none)
    (hnd : (adisk.map Prod.fst).Nodup) :
    (scanApps ((app, adisk) :: rest) caches watched).1 =
      adisk.map (fun p => Signal.externalValueChanged app p.1 (some p.2)) ++
        (scanApps rest (insertA caches app (diffPass adisk []).2)
          (if app ∈ watched then watched else watched ++ [app])).1 ∧
    lookupA (diffPass adisk []).2 k = lookupA adisk k ∧
    app ∈ (scanApps ((app, adisk) :: rest) caches watched).2.2 := by
  have hdet : detectAppChanges adisk caches app =
      ((diffPass adisk []).1, insertA caches app (diffPass adisk []).2) := by
    simp [detectAppChanges, hfresh]
  refine ⟨?_, diffPass_snd adisk [] k hnd, ?_⟩
  · have hs : (scanApps ((app, adisk) :: rest) caches watched).1 =
        (detectAppChanges adisk caches app).1.map
          (fun p => Signal.externalValueChanged app p.1 p.2) ++
        (scanApps rest (detectAppChanges adisk caches app).2
          (if app ∈ watched then watched else watched ++ [app])).1 := by
      simp [scanApps, hsys]
    rw [hs, hdet]
    simp [diffPass_fresh_fst adisk hnd, List.map_map, Function.comp]
  · have hs2 : (scanApps ((app, adisk) :: rest) caches watched).2.2 =
        (scanApps rest (detectAppChanges adisk caches app).2
          (if app ∈ watched then watched else watched ++ [app])).2.2 := by
      simp [scanApps, hsys]
    rw [hs2]
    apply scanApps_watched_mono
    by_cases hw : app ∈ watched
    · simp [hw]
    · simp [hw]

/-- Witness for C3 as amended: a fresh file `f` containing key `k` is seeded,
watched, and its single key is emitted. -/
theorem c3_witness :
    (scanApps [((['f'], [(['k'], 5)]) : Str × List (Str × Nat))] [] []).1 =
      [(['k'], (5 : Nat))].map
          (fun p => Signal.externalValueChanged ['f'] p.1 (some p.2)) ++
        (scanApps [] (insertA [] ['f'] (diffPass [(['k'], (5 : Nat))] []).2)
          (if (['f'] : Str) ∈ ([] : List Str) then [] else [] ++ [['f']])).1 ∧
    lookupA (diffPass [(['k'], (5 : Nat))] []).2 ['k'] =
      lookupA [(['k'], (5 : Nat))] ['k'] ∧
    (['f'] : Str) ∈ (scanApps [((['f'], [(['k'], 5)]) : Str × List (Str × Nat))] [] []).2.2 :=
  c3_runtime_discovery_amended ['f'] [(['k'], 5)] [] [] [] ['k']
    (by decide) rfl (by decide)

/-- Counterexample to C3 as stated: a file `foo` absent from the sibling cache
table but holding a pre-existing key `k` is discovered during a timer-expiry
pass, and the pass DOES emit `externalValueChanged("foo", k, v)` for that
pre-existing key — the first detection pass is not discarded. -/
theorem c3_counterexample :
    lookupA (mkSys [] []).appCachedValues ['f', 'o', 'o'] = none ∧
    Signal.externalValueChanged ['f', 'o', 'o'] ['k'] (some (5 : Nat)) ∈
      (systemTimerCallback [] [(['f', 'o', 'o'], [(['k'], 5)])] (mkSys [] [])).1 := by
  decide

/-- C4 as amended: the System-scope timer callback never emits `valueChanged`
(external changes surface only as `externalValueChanged`), and `setValue` /
`remove` emit `valueChanged` synchronously; but the Application-scope timer
callback ALSO emits `valueChanged` — exactly one per detected external delta
entry — so for Application-scope instances `valueChanged` is not confined to
local writes and removals. -/
theorem c4_signal_paths_amended (sysDisk : List (Str × V))
    (dirFiles : List (Str × List (Str × V))) (sys : SysState V)
    (disk : List (Str × V)) (st : UniState V) (k : Str) (ov : Option V) (w : V) :
    (Signal.valueChanged k ov ∉ (systemTimerCallback sysDisk dirFiles sys).1) ∧
    (Signal.valueChanged k ov ∈ (appTimerCallback disk st).1 ↔
       (k, ov) ∈ (detectChanges disk st).1) ∧
    ((setValue st k w).1 =
       if lookupA st.settings (fullKey st.currentGroup k) = some w then []
       else [Signal.valueChanged (fullKey st.currentGroup k) (some w)]) ∧
    (removeOp st k).1 = [Signal.valueChanged (fullKey st.currentGroup k) none] := by
  refine ⟨?_, ?_, ?_, rfl⟩
  · have hs : (systemTimerCallback sysDisk dirFiles sys).1 =
        (detectChanges sysDisk sys.base).1.map
          (fun p => Signal.externalValueChanged sysName p.1 p.2) ++
        (scanApps dirFiles sys.appCachedValues sys.watched).1 := by
      simp [systemTimerCallback]
    rw [hs]
    intro hm
    rcases List.mem_append.1 hm with hm | hm
    · obtain ⟨q, _, hq⟩ := List.mem_map.1 hm
      exact Signal.noConfusion hq
    · exact scanApps_no_valueChanged dirFiles sys.appCachedValues sys.watched k ov hm
  · exact valueChanged_mem_foldr st.appName (detectChanges disk st).1 k ov
  · by_cases h : lookupA st.settings (fullKey st.currentGroup k) = some w <;>
      simp [setValue, h]

/-- Counterexample to C4 as stated: the Application-scope debounce timer
callback emits `valueChanged` for an externally detected change ("Added for
local monitoring" in the source), i.e. `valueChanged` is not emitted only from
within local writes/removals. -/
theorem c4_counterexample :
    Signal.valueChanged ['a'] (some (1 : Nat)) ∈
      (appTimerCallback [(['a'], 1)] (mkState [] [] false)).1 := by
  decide

/-- C7: the effective storage key is the `/`-join of the group stack, a `/`,
then the leaf (or the leaf alone for an empty stack); `beginGroup` appends
after a `/` separator when a group is active; `endGroup` strips exactly the
last `/`-delimited segment, and on an empty group it is a no-op leaving the
group empty; `group()` returns the joined prefix.  Stack segments are taken
non-empty, since an empty segment is not representable in the single
`currentGroup` string the implementation keeps. -/
theorem c7_group_scoping (gs : List Str) (leaf gp pfx seg : Str) :
    ((∀ s ∈ gs, s ≠ []) →
       fullKey (joinGroups gs) leaf =
         if gs = [] then leaf else joinGroups gs ++ '/' :: leaf) ∧
    (gp ≠ [] → beginGroup gp pfx = gp ++ '/' :: pfx) ∧
    ('/' ∉ seg → endGroup (gp ++ '/' :: seg) = gp) ∧
    ('/' ∉ gp → endGroup gp = []) ∧
    endGroup [] = [] ∧
    groupGet (joinGroups gs) = joinGroups gs := by
  refine ⟨?_, ?_, ?_, ?_, rfl, rfl⟩
  · intro h1
    match gs with
    | [] => simp [joinGroups, fullKey]
    | s :: rest =>
      have hne : joinGroups (s :: rest) ≠ [] :=
        joinGroups_ne_nil (s :: rest) (by simp) h1
      have he : (joinGroups (s :: rest)).isEmpty = false := by
        cases hj : joinGroups (s :: rest) with
        | nil => exact absurd hj hne
        | cons a t => rfl
      simp [fullKey, he]
  · intro h
    have he : gp.isEmpty = false := by
      cases gp with
      | nil => exact absurd rfl h
      | cons a t => rfl
    simp [beginGroup, he]
  · intro h
    simp [endGroup, lastSlashIdx_append gp seg h, take_length_append]
  · intro h
    simp [endGroup, lastSlashIdx_of_no_slash gp h]

/-- Witness for C7: a two-segment group stack `a/b`, leaf `x`. -/
theorem c7_witness :
    fullKey (joinGroups [['a'], ['b']]) ['x'] =
      (if ([['a'], ['b']] : List Str) = []
       then ['x'] else joinGroups [['a'], ['b']] ++ '/' :: ['x']) ∧
    beginGroup ['a'] ['b'] = ['a'] ++ '/' :: ['b'] ∧
    endGroup (['a'] ++ '/' :: ['b']) = ['a'] ∧
    endGroup ['a'] = [] :=
  ⟨(c7_group_scoping [['a'], ['b']] ['x'] ['a'] ['b'] ['b']).1 (by decide),
   (c7_group_scoping [['a'], ['b']] ['x'] ['a'] ['b'] ['b']).2.1 (by decide),
   (c7_group_scoping [['a'], ['b']] ['x'] ['a'] ['b'] ['b']).2.2.1 (by decide),
   (c7_group_scoping [['a'], ['b']] ['x'] ['a'] ['b'] ['b']).2.2.2.1 (by decide)⟩

/-- C9: the code does not surface durable-write failures.  When the
`settings->sync()` inside a state-changing `setValue` fails, the signals
emitted and the facade state returned are identical to the success case — the
status word is left at `AccessError` and the disk unchanged, but `setValue`
is `void` and never inspects `status()`, so the caller sees no error. -/
theorem c9_write_failure_swallowed (st : UniState V) (d : DiskState V) (k : Str) (v : V)
    (h : lookupA st.settings (fullKey st.currentGroup k) ≠ some v) :
    (setValueChecked false st d k v).1 = (setValueChecked true st d k v).1 ∧
    (setValueChecked false st d k v).2.1 = (setValueChecked true st d k v).2.1 ∧
    (setValueChecked false st d k v).2.2.status = QtStatus.accessError ∧
    (setValueChecked false st d k v).2.2.onDisk = d.onDisk := by
  simp [setValueChecked, h, qsettingsSync]

/-- Witness for C9 at a concrete failing write. -/
theorem c9_witness :
    (setValueChecked false (mkState [] [] false) (DiskState.mk [] QtStatus.noError)
        ['a'] 1).1 =
      (setValueChecked true (mkState [] [] false) (DiskState.mk [] QtStatus.noError)
        ['a'] 1).1 ∧
    (setValueChecked false (mkState [] [] false) (DiskState.mk [] QtStatus.noError)
        ['a'] 1).2.1 =
      (setValueChecked true (mkState [] [] false) (DiskState.mk [] QtStatus.noError)
        ['a'] 1).2.1 ∧
    (setValueChecked false (mkState [] [] false) (DiskState.mk [] QtStatus.noError)
        ['a'] 1).2.2.status = QtStatus.accessError ∧
    (setValueChecked false (mkState [] [] false) (DiskState.mk [] QtStatus.noError)
        ['a'] 1).2.2.onDisk = (DiskState.mk ([] : List (Str × Nat)) QtStatus.noError).onDisk :=
  c9_write_failure_swallowed (mkState [] [] false) (DiskState.mk [] QtStatus.noError)
    ['a'] 1 (by decide)

end Claims
